import Mathlib

/-!
The package securecookie: signed, timestamped cookie values.

A shallow embedding of `securecookie.go` (a Go port of tornado 2.4 secure cookies).

* Go strings and byte slices are lists of byte values (`Bytes`); a well-formed
  byte is a natural number below 256.
* `time.Now()` is an explicit argument `now`, first in the argument list of every
  function that reads the clock; its location is the zone `Local` of the process.
* The standard-library functions the package calls (`strconv.ParseInt`,
  `encoding/base64`, `encoding/hex`, `crypto/sha1`, `crypto/hmac`, `bytes.Split`,
  `time.Unix`, `Time.Before`, ...) are embedded from the Go standard library
  (Go 1.13 or later for the base-0 integer syntax).
* Errors made with `fmt.Errorf` are the constructors of `DecodeError`.
-/

namespace SecureCookie

/-- A Go `string` or `[]byte`: a sequence of byte values. -/
abbrev Bytes := List Nat

deriving instance DecidableEq for Except

/-- The bytes of an ASCII literal. -/
def str (s : String) : Bytes := s.toList.map Char.toNat

/-! ## crypto/sha1 -/

/-- `bits.RotateLeft32`. -/
def rotl32 (x n : Nat) : Nat := ((x <<< n) ||| (x >>> (32 - n))) % 4294967296

/-- The round function of SHA-1 for round `t`. -/
def sha1F (t b c d : Nat) : Nat :=
  if t < 20 then (b &&& c) ||| ((b ^^^ 0xFFFFFFFF) &&& d)
  else if t < 40 then b ^^^ c ^^^ d
  else if t < 60 then ((b ||| c) &&& d) ||| (b &&& c)
  else b ^^^ c ^^^ d

/-- The round constant of SHA-1 for round `t`. -/
def sha1K (t : Nat) : Nat :=
  if t < 20 then 0x5A827999 else if t < 40 then 0x6ED9EBA1
  else if t < 60 then 0x8F1BBCDC else 0xCA62C1D6

/-- The first `n` big-endian 32-bit words of `p`. -/
def beWords : Nat → Bytes → List Nat
  | 0, _ => []
  | n+1, p =>
    (p.getD 0 0 * 16777216 + p.getD 1 0 * 65536 + p.getD 2 0 * 256 + p.getD 3 0)
      :: beWords n (p.drop 4)

/-- The five 32-bit chaining words of SHA-1. -/
structure Sha1State where
  a : Nat
  b : Nat
  c : Nat
  d : Nat
  e : Nat
deriving DecidableEq, Repr

/-- The message schedule: `n` further words from the window `w` of the last 16. -/
def sha1Expand : Nat → List Nat → List Nat
  | 0, _ => []
  | n+1, w =>
    let x := rotl32 (w.getD 13 0 ^^^ w.getD 8 0 ^^^ w.getD 2 0 ^^^ w.getD 0 0) 1
    x :: sha1Expand n (w.drop 1 ++ [x])

/-- The rounds of SHA-1 over the schedule words, starting at round `t`. -/
def sha1Rounds : List Nat → Nat → Sha1State → Sha1State
  | [], _, s => s
  | wt :: ws, t, s =>
    sha1Rounds ws (t+1)
      ⟨(rotl32 s.a 5 + sha1F t s.b s.c s.d + s.e + wt + sha1K t) % 4294967296,
        s.a, rotl32 s.b 30, s.c, s.d⟩

/-- One 64-byte block of SHA-1 (`blockGeneric`). -/
def sha1Block (h : Sha1State) (p : Bytes) : Sha1State :=
  let w := beWords 16 p
  let r := sha1Rounds (w ++ sha1Expand 64 w) 0 h
  ⟨(h.a + r.a) % 4294967296, (h.b + r.b) % 4294967296, (h.c + r.c) % 4294967296,
    (h.d + r.d) % 4294967296, (h.e + r.e) % 4294967296⟩

/-- SHA-1 over `n` consecutive 64-byte blocks of `p`. -/
def sha1Blocks : Nat → Sha1State → Bytes → Sha1State
  | 0, h, _ => h
  | n+1, h, p => sha1Blocks n (sha1Block h (p.take 64)) (p.drop 64)

/-- The `n` low-order bytes of `x`, most significant first. -/
def beBytes : Nat → Nat → Bytes
  | 0, _ => []
  | n+1, x => (x / 256 ^ n) % 256 :: beBytes n x

/-- The padding of SHA-1: `0x80`, zeros, and the bit length on 64 bits. -/
def sha1Pad (msg : Bytes) : Bytes :=
  msg ++ [0x80] ++ List.replicate ((119 - msg.length % 64) % 64) 0
    ++ beBytes 8 (msg.length * 8 % 18446744073709551616)

/-- The initial chaining value of SHA-1. -/
def sha1Init : Sha1State := ⟨0x67452301, 0xEFCDAB89, 0x98BADCFE, 0x10325476, 0xC3D2E1F0⟩

/-- The 20-byte SHA-1 digest of `msg` (`sha1.New()`, `Write(msg)`, `Sum(nil)`). -/
def sha1Sum (msg : Bytes) : Bytes :=
  let p := sha1Pad msg
  let h := sha1Blocks (p.length / 64) sha1Init p
  beBytes 4 h.a ++ beBytes 4 h.b ++ beBytes 4 h.c ++ beBytes 4 h.d ++ beBytes 4 h.e

/-! ## crypto/hmac -/

/-- The state of `hmac.New(sha1.New, key)`: the two key blocks and the bytes
written to the inner hash so far (the inner key block included). -/
structure HMAC where
  ipad : Bytes
  opad : Bytes
  inner : Bytes
deriving DecidableEq, Repr

/-- `hmac.New(sha1.New, key)`: a key longer than the block size (64) is hashed,
a shorter one is padded with zero bytes. -/
def hmacNew (key : Bytes) : HMAC :=
  let key := if key.length > 64 then sha1Sum key else key
  let block := key ++ List.replicate (64 - key.length) 0
  let ipad := block.map (fun b => b ^^^ 0x36)
  let opad := block.map (fun b => b ^^^ 0x5c)
  ⟨ipad, opad, ipad⟩

/-- `h.Write(p)`. -/
def HMAC.Write (h : HMAC) (p : Bytes) : HMAC := ⟨h.ipad, h.opad, h.inner ++ p⟩

/-- `h.Sum(nil)`. -/
def HMAC.Sum (h : HMAC) : Bytes := sha1Sum (h.opad ++ sha1Sum h.inner)

/-- HMAC-SHA1 of `msg` under `key`: `hmac.New(sha1.New, key)`, `Write(msg)`,
`Sum(nil)`. -/
def hmacSHA1 (key msg : Bytes) : Bytes := ((hmacNew key).Write msg).Sum

/-! ## encoding/hex, bytes -/

/-- The digits of `encoding/hex`. -/
def hextable : Bytes := str "0123456789abcdef"

/-- The hexadecimal text of `src`, two digits a byte. -/
def hexEncodeToList : Bytes → Bytes
  | [] => []
  | v :: rest => hextable.getD (v / 16) 0 :: hextable.getD (v % 16) 0 :: hexEncodeToList rest

/-- `hex.Encode(dst, src)`: the first `2 * len(src)` bytes of `dst` are overwritten. -/
def hexEncode (dst src : Bytes) : Bytes :=
  hexEncodeToList src ++ dst.drop (2 * src.length)

/-- `bytes.Index(s, []byte{c})`: the index of the first `c` in `s`, or `-1`. -/
def bytesIndex : Bytes → Nat → Int
  | [], _ => -1
  | x :: xs, c => if x = c then 0 else
    match bytesIndex xs c with
    | Int.negSucc _ => -1
    | Int.ofNat i => Int.ofNat (i + 1)

/-- `bytes.Split(s, []byte{sep})`: the pieces of `s` between the occurrences of `sep`. -/
def bytesSplit : Bytes → Nat → List Bytes
  | [], _ => [[]]
  | c :: cs, sep =>
    if c = sep then [] :: bytesSplit cs sep
    else match bytesSplit cs sep with
      | [] => [[c]]
      | p :: ps => (c :: p) :: ps

/-- `bytes.Equal`. -/
def bytesEqual (a b : Bytes) : Bool := decide (a = b)

/-- `bytes.HasPrefix`. -/
def bytesHasPrefix (s pre : Bytes) : Bool := decide (s.take pre.length = pre)

/-- `strings.Join`. -/
def stringsJoin : List Bytes → Bytes → Bytes
  | [], _ => []
  | [a], _ => a
  | a :: b :: rest, sep => a ++ sep ++ stringsJoin (b :: rest) sep

/-! ## encoding/base64, `URLEncoding` -/

/-- The alphabet of `base64.URLEncoding`. -/
def encodeURL : Bytes :=
  str "ABCDEFGHIJKLMNOPQRSTUVWXYZabcdefghijklmnopqrstuvwxyz0123456789-_"

/-- The character of a 6-bit value. -/
def b64Char (i : Nat) : Nat := encodeURL.getD (i % 64) 0

/-- `base64.URLEncoding.EncodeToString`: three bytes become four characters, the
last group is padded with `=`. -/
def base64EncodeToString : Bytes → Bytes
  | [] => []
  | [a] =>
    let val := a * 65536
    [b64Char (val / 262144), b64Char (val / 4096), 61, 61]
  | [a, b] =>
    let val := a * 65536 + b * 256
    [b64Char (val / 262144), b64Char (val / 4096), b64Char (val / 64), 61]
  | a :: b :: c :: rest =>
    let val := a * 65536 + b * 256 + c
    b64Char (val / 262144) :: b64Char (val / 4096) :: b64Char (val / 64) :: b64Char val
      :: base64EncodeToString rest

/-- The decode map of the alphabet: the 6-bit value of a character, if it has one. -/
def decodeMap (c : Nat) : Option Nat :=
  let i := encodeURL.indexOf c
  if i < 64 then some i else none

/-- Skips the newline characters `\r` and `\n` at the front. -/
def skipNewlines : Bytes → Bytes
  | [] => []
  | c :: cs => if c = 10 ∨ c = 13 then skipNewlines cs else c :: cs

/-- The bytes of a quantum of `dlen` characters whose 6-bit values are `dbuf`. -/
def quantumBytes (dbuf : List Nat) : Bytes :=
  let val := dbuf.getD 0 0 * 262144 + dbuf.getD 1 0 * 4096 + dbuf.getD 2 0 * 64 + dbuf.getD 3 0
  ([val / 65536 % 256, val / 256 % 256, val % 256] : Bytes).take (dbuf.length - 1)

/-- The decoder loop of `base64.URLEncoding` (`Decode` over `decodeQuantum`):
`dbuf` holds the 6-bit values of the current quantum, `out` the bytes decoded so
far; `none` is a `CorruptInputError`. -/
def base64DecodeLoop : Bytes → List Nat → Bytes → Option Bytes
  | [], dbuf, out => if dbuf.length = 0 then some out else none
  | c :: rest, dbuf, out =>
    match decodeMap c with
    | some v =>
      if dbuf.length = 3 then base64DecodeLoop rest [] (out ++ quantumBytes (dbuf ++ [v]))
      else base64DecodeLoop rest (dbuf ++ [v]) out
    | none =>
      if c = 10 ∨ c = 13 then base64DecodeLoop rest dbuf out
      else if c ≠ 61 then none
      else if dbuf.length < 2 then none
      else if dbuf.length = 2 then
        match skipNewlines rest with
        | [] => none
        | c2 :: rest2 =>
          if c2 ≠ 61 then none
          else if skipNewlines rest2 = [] then some (out ++ quantumBytes dbuf) else none
      else
        if skipNewlines rest = [] then some (out ++ quantumBytes dbuf) else none

/-- `base64.URLEncoding.DecodeString`; `none` when it returns an error. -/
def base64DecodeString (s : Bytes) : Option Bytes := base64DecodeLoop s [] []

/-! ## strconv -/

/-- The two kinds of `*strconv.NumError`: `ErrSyntax` and `ErrRange`. -/
inductive NumError where
  | malformed
  | outOfRange
deriving DecidableEq, Repr

/-- `lower(c)` of strconv: `c | ('x' - 'X')`. -/
def lower (c : Nat) : Nat := c ||| 32

/-- The value of a digit character, letters counting from 10. -/
def digitVal (c : Nat) : Option Nat :=
  if 48 ≤ c ∧ c ≤ 57 then some (c - 48)
  else if 97 ≤ lower c ∧ lower c ≤ 122 then some (lower c - 97 + 10)
  else none

/-- The digit loop of `strconv.ParseUint`: `n` is the value so far and `us`
records that an underscore was skipped. -/
def parseDigits (base : Nat) (base0 : Bool) (cutoff maxVal : Nat) :
    Bytes → Nat → Bool → Except NumError (Nat × Bool)
  | [], n, us => .ok (n, us)
  | c :: cs, n, us =>
    if c = 95 ∧ base0 = true then parseDigits base base0 cutoff maxVal cs n true
    else
      match digitVal c with
      | none => .error .malformed
      | some d =>
        if d ≥ base then .error .malformed
        else if n ≥ cutoff then .error .outOfRange
        else
          let n1 := (n * base + d) % 18446744073709551616
          if n1 < n * base ∨ n1 > maxVal then .error .outOfRange
          else parseDigits base base0 cutoff maxVal cs n1 us

/-- The scan of `underscoreOK`: `i` is `'0'` after a digit or base prefix, `'_'`
after an underscore and `'!'` after anything else. -/
def underscoreOKLoop (hex : Bool) : Bytes → Nat → Bool
  | [], i => decide (i ≠ 95)
  | c :: cs, i =>
    if (48 ≤ c ∧ c ≤ 57) ∨ (hex = true ∧ 97 ≤ lower c ∧ lower c ≤ 102) then
      underscoreOKLoop hex cs 48
    else if c = 95 then
      if i ≠ 48 then false else underscoreOKLoop hex cs 95
    else if i = 95 then false
    else underscoreOKLoop hex cs 33

/-- `underscoreOK(s)` of strconv: underscores only between digits or between a
base prefix and a digit. -/
def underscoreOK (s : Bytes) : Bool :=
  let s1 := match s with
    | c :: r => if c = 45 ∨ c = 43 then r else s
    | [] => s
  if s1.length ≥ 2 ∧ s1.getD 0 0 = 48 ∧
      (lower (s1.getD 1 0) = 98 ∨ lower (s1.getD 1 0) = 111 ∨ lower (s1.getD 1 0) = 120) then
    underscoreOKLoop (decide (lower (s1.getD 1 0) = 120)) (s1.drop 2) 48
  else underscoreOKLoop false s1 94

/-- The base and the digits that `ParseUint(s, 0, 64)` reads off a non-empty `s`:
`0b`, `0o`, `0x` select base 2, 8, 16, another leading `0` base 8, anything else
base 10. -/
def basePrefix (s : Bytes) : Nat × Bytes :=
  if s.getD 0 0 = 48 then
    if s.length ≥ 3 ∧ lower (s.getD 1 0) = 98 then (2, s.drop 2)
    else if s.length ≥ 3 ∧ lower (s.getD 1 0) = 111 then (8, s.drop 2)
    else if s.length ≥ 3 ∧ lower (s.getD 1 0) = 120 then (16, s.drop 2)
    else (8, s.drop 1)
  else (10, s)

/-- `strconv.ParseUint(s, 0, 64)`. -/
def ParseUint (s : Bytes) : Except NumError Nat :=
  if s = [] then .error .malformed
  else
    let bd := basePrefix s
    let cutoff := 18446744073709551615 / bd.1 + 1
    match parseDigits bd.1 true cutoff 18446744073709551615 bd.2 0 false with
    | .error e => .error e
    | .ok (n, underscores) =>
      if underscores = true ∧ underscoreOK s = false then .error .malformed else .ok n

/-- `strconv.ParseInt(s, 0, 64)`, the call of `checkTimestamp`. A range error of
`ParseUint` comes with the value `1<<64 - 1` and fails the range check below. -/
def ParseInt (s : Bytes) : Except NumError Int :=
  match s with
  | [] => .error .malformed
  | c0 :: rest =>
    let neg := decide (c0 = 45)
    let s1 := if c0 = 43 ∨ c0 = 45 then rest else s
    match ParseUint s1 with
    | .error .malformed => .error .malformed
    | r =>
      let un := match r with
        | .ok u => u
        | .error _ => 18446744073709551615
      if neg = false ∧ un ≥ 9223372036854775808 then .error .outOfRange
      else if neg = true ∧ un > 9223372036854775808 then .error .outOfRange
      else .ok (if neg = true then - (Int.ofNat un) else Int.ofNat un)

/-- The decimal digits of `u`, at most `fuel` of them. -/
def formatDigits : Nat → Nat → Bytes
  | 0, _ => []
  | fuel+1, u => if u < 10 then [48 + u] else formatDigits fuel (u / 10) ++ [48 + u % 10]

/-- `strconv.FormatInt(i, 10)`, which `fmt.Sprint` prints an `int64` with: a
`uint64` has at most 20 digits. -/
def FormatInt (i : Int) : Bytes :=
  if i < 0 then 45 :: formatDigits 20 (-i).toNat else formatDigits 20 i.toNat

/-- The value of the decimal digits `ds` read from the left, continuing from `n`. -/
def decimalValueFrom (n : Nat) (ds : Bytes) : Nat := ds.foldl (fun m c => m * 10 + (c - 48)) n

/-- The base-10 signed 64-bit integer literals: an optional sign followed only by
decimal digits, at least one, with the value in the `int64` range. -/
def isDecimalInt64Literal (s : Bytes) : Bool :=
  let ds := if s.head? = some 43 ∨ s.head? = some 45 then s.tail else s
  decide (ds ≠ []) && ds.all (fun c => decide (48 ≤ c ∧ c ≤ 57)) &&
    (if s.head? = some 45 then decide (decimalValueFrom 0 ds ≤ 9223372036854775808)
      else decide (decimalValueFrom 0 ds < 9223372036854775808))

/-! ## time -/

/-- The offset of a zone, coded as a number below 183599: local time is UTC plus
`utoff - 89999` seconds. The offsets of zone information lie between -89999 and
93599 seconds (RFC 8536). -/
abbrev ZoneOffset := Fin 183599

/-- The code of the zone offset of `seconds` seconds east of UTC. -/
def utoff (seconds : Int) : ZoneOffset := ⟨((seconds + 89999) % 183599).toNat, by omega⟩

/-- A transition of a zone: from the instant `when` (Unix seconds) on, the offset
is `utoff`. -/
structure ZoneTrans where
  when : Int
  utoff : ZoneOffset
deriving DecidableEq, Repr

/-- A `time.Location`: the offset in force before the first transition, and the
transitions in increasing order of `when`. -/
structure Location where
  first : ZoneOffset
  tx : List ZoneTrans
deriving DecidableEq, Repr

/-- What `Location.lookup` returns: the offset in force, in seconds, and the
instants `start` and `stop` (`end` in Go) between which it is in force. -/
structure ZoneSpan where
  offset : Int
  start : Int
  stop : Int
deriving DecidableEq, Repr

/-- The search of `Location.lookup` through the transitions: `offset` has been in
force since `start`. -/
def lookupFrom (offset start : Int) : List ZoneTrans → Int → ZoneSpan
  | [], _ => ⟨offset, start, 9223372036854775807⟩
  | tr :: rest, sec =>
    if sec < tr.when then ⟨offset, start, tr.when⟩
    else lookupFrom ((tr.utoff.val : Int) - 89999) tr.when rest sec

/-- `l.lookup(sec)`: the zone in force at the instant `sec`, that of the last
transition not after `sec`. The rule of a zone file for the instants after its
last transition stands for further transitions of the list. -/
def Location.lookup (l : Location) (sec : Int) : ZoneSpan :=
  lookupFrom ((l.first.val : Int) - 89999) (-9223372036854775808) l.tx sec

/-- The location `time.UTC`. -/
def utcLoc : Location := ⟨utoff 0, []⟩

/-- A `time.Time`: `ext` is the number of seconds since January 1, year 1 00:00:00
UTC (an `int64`), `nsec` the nanoseconds within the second, `loc` the location,
which for the clock `time.Now()` is the zone `Local` of the process. `Before`,
`After` and `Unix` read `ext` and `nsec` only. -/
structure Time where
  ext : Int
  nsec : Nat
  loc : Location
deriving DecidableEq, Repr

/-- The seconds from year 1 to 1970. -/
def unixToInternal : Int := 62135596800

/-- The value of the `int64` that holds `x` after wrap-around. -/
def wrapInt64 (x : Int) : Int :=
  (x + 9223372036854775808) % 18446744073709551616 - 9223372036854775808

/-- `time.Unix(sec, 0)`, which is `Time{0, sec + unixToInternal, Local}` in `int64`
arithmetic: "not all sec values have a corresponding time value". The location
is left at UTC; used as a clock, the value is a clock in UTC. -/
def timeUnix (sec : Int) : Time := ⟨wrapInt64 (sec + unixToInternal), 0, utcLoc⟩

/-- `t.Unix()`: `t.sec() + internalToUnix` in `int64` arithmetic. -/
def Time.Unix (t : Time) : Int := wrapInt64 (t.ext - unixToInternal)

/-- `t.AddDate(0, 0, days)`, which is `Date(year, month, day + days, hour, min,
sec, nsec, loc)` on the date and the clock reading of `t` in its location. `unix`
is the instant that has this date and reading in UTC; `Date` subtracts the offset
in force at `unix`, or the one in force at the corrected instant when that falls
outside the span of the first. -/
def Time.AddDate (t : Time) (days : Int) : Time :=
  let sec := t.ext - unixToInternal
  let unix := sec + (t.loc.lookup sec).offset + days * 86400
  let z := t.loc.lookup unix
  let offset :=
    if z.offset ≠ 0 then
      if unix - z.offset < z.start ∨ unix - z.offset ≥ z.stop then
        (t.loc.lookup (unix - z.offset)).offset
      else z.offset
    else 0
  ⟨unix - offset + unixToInternal, t.nsec, t.loc⟩

/-- `t.Before(u)`. -/
def Time.Before (t u : Time) : Bool :=
  decide (t.ext < u.ext) || (decide (t.ext = u.ext) && decide (t.nsec < u.nsec))

/-- `t.After(u)`. -/
def Time.After (t u : Time) : Bool :=
  decide (t.ext > u.ext) || (decide (t.ext = u.ext) && decide (t.nsec > u.nsec))

/-! ## securecookie.go -/

/-- The errors of the package, one constructor for each `fmt.Errorf`:
"Signed value is empty", "Incomplete signed value", "Invalid signature",
"Invalid timestamp: ...", "Expired Cookie", "Cookie timestamp is in the
future,possible tampering", "Tampered cookie". -/
inductive DecodeError where
  | emptyValue
  | incomplete
  | invalidSignature
  | invalidTimestamp
  | expired
  | fromFuture
  | tampered
deriving DecidableEq, Repr

/-- `cookieIsExpired`: the cookie time is before `time.Now().AddDate(0, 0, -31)`. -/
def cookieIsExpired (now cookieTime : Time) : Bool :=
  cookieTime.Before (now.AddDate (-31))

/-- `cookieIsFromFuture`: the cookie time is after `time.Now().AddDate(0, 0, 31)`. -/
def cookieIsFromFuture (now cookieTime : Time) : Bool :=
  cookieTime.After (now.AddDate 31)

/-- `cookieIsTampered`: the timestamp text starts with `0`. -/
def cookieIsTampered (timestamp : Bytes) : Bool := bytesHasPrefix timestamp (str "0")

/-- `checkTimestamp`; `none` is the `nil` error. -/
def checkTimestamp (now : Time) (bTimestamp : Bytes) : Option DecodeError :=
  match ParseInt bTimestamp with
  | .error _ => some .invalidTimestamp
  | .ok timestamp =>
    let cookieTime := timeUnix timestamp
    if cookieIsExpired now cookieTime = true then some .expired
    else if cookieIsFromFuture now cookieTime = true then some .fromFuture
    else if cookieIsTampered bTimestamp = true then some .tampered
    else none

/-- `createSignature(secret, parts...)`. The slice `hexDigest[:i]` panics for
`i = -1`; the scratch buffer always holds a zero byte, so the empty result
standing for the panic is never produced. -/
def createSignature (secret : Bytes) (parts : List Bytes) : Bytes :=
  let h := parts.foldl HMAC.Write (hmacNew secret)
  let hexDigest := hexEncode (List.replicate 64 0) h.Sum
  match bytesIndex hexDigest 0 with
  | Int.ofNat i => hexDigest.take i
  | Int.negSucc _ => []

/-- `CreateSignedValue(secret, name, value, createdAt)`. -/
def CreateSignedValue (secret name value : Bytes) (createdAt : Time) : Bytes :=
  let ts := FormatInt createdAt.Unix
  let b64Value := base64EncodeToString value
  let signature := createSignature secret [name, b64Value, ts]
  stringsJoin [b64Value, ts, signature] (str "|")

/-- `DecodeSignedValue(secret, name, signedValue)` when the clock reads `now`:
the decoded value, or the error. -/
def DecodeSignedValue (now : Time) (secret name signedValue : Bytes) :
    Except DecodeError Bytes :=
  if signedValue = [] then .error .emptyValue
  else
    match bytesSplit signedValue 124 with
    | [value, timestamp, signature] =>
      let newSignature := createSignature secret [name, value, timestamp]
      if bytesEqual signature newSignature = false then .error .invalidSignature
      else
        match checkTimestamp now timestamp with
        | some err => .error err
        | none =>
          match base64DecodeString value with
          | some data => .ok data
          | none => .ok []
    | _ => .error .incomplete

/-- The loop of `bytes.Equal` over slices of one length (`equalPortable`): the
number of byte pairs compared, from the left up to and including the first pair
that differs. -/
def equalLoopSteps : Bytes → Bytes → Nat
  | x :: xs, y :: ys => if x ≠ y then 1 else 1 + equalLoopSteps xs ys
  | _, _ => 0

/-- The number of byte pairs that `bytes.Equal(a, b)` compares: slices of different
lengths are unequal at once. -/
def bytesEqualSteps (a b : Bytes) : Nat :=
  if a.length ≠ b.length then 0 else equalLoopSteps a b

/-- A `http.Cookie`. -/
structure Cookie where
  Name : Bytes
  Value : Bytes
  Path : Bytes
  Domain : Bytes
  Expires : Time
  RawExpires : Bytes
  MaxAge : Int
  Secure : Bool
  HttpOnly : Bool
  Raw : Bytes
  Unparsed : List Bytes
deriving DecidableEq, Repr

/-- The cookie `&http.Cookie{Name: name, Value: value}` of the tests: every other
field has its zero value. -/
def plainCookie (name value : Bytes) : Cookie :=
  ⟨name, value, [], [], ⟨0, 0, utcLoc⟩, [], 0, false, false, [], []⟩

/-- The errors of `GetSecureCookie`: `http.ErrNoCookie`, or an error of
`DecodeSignedValue`. -/
inductive CookieError where
  | noCookie
  | decode (err : DecodeError)
deriving DecidableEq, Repr

/-- The loop of `GetSecureCookie`: the first cookie named `name`, where the loop
breaks, or `none` for the `nil` pointer. -/
def findCookie : List Cookie → Bytes → Option Cookie
  | [], _ => none
  | x :: xs, name => if x.Name = name then some x else findCookie xs name

/-- `SignCookie(c, secret)` when the clock reads `now`: the cookie after the call. -/
def SignCookie (now : Time) (c : Cookie) (secret : Bytes) : Cookie :=
  { c with Value := CreateSignedValue secret c.Name c.Value now }

/-- `GetSecureCookie(r, secret, name)` when the clock reads `now`, with `cookies`
for `r.Cookies()`: the cookie returned, its value overwritten with the decoded
one, or the error. -/
def GetSecureCookie (now : Time) (cookies : List Cookie) (secret name : Bytes) :
    Except CookieError Cookie :=
  match findCookie cookies name with
  | none => .error .noCookie
  | some c =>
    match DecodeSignedValue now secret c.Name c.Value with
    | .error err => .error (.decode err)
    | .ok v => .ok { c with Value := v }

/-! ## Lemmas -/

theorem str_bar : str "|" = [124] := by decide

theorem str_zero : str "0" = [48] := by decide

theorem bytesSplit_of_not_mem (sep : Nat) : ∀ a : Bytes, sep ∉ a → bytesSplit a sep = [a]
  | [], _ => rfl
  | c :: cs, h => by
    have hc : c ≠ sep := fun e => h (by simp [e])
    have hcs : sep ∉ cs := fun m => h (List.mem_cons_of_mem _ m)
    simp [bytesSplit, hc, bytesSplit_of_not_mem sep cs hcs]

theorem bytesSplit_append (sep : Nat) (b : Bytes) :
    ∀ a : Bytes, sep ∉ a → bytesSplit (a ++ sep :: b) sep = a :: bytesSplit b sep
  | [], _ => by simp [bytesSplit]
  | c :: cs, h => by
    have hc : c ≠ sep := fun e => h (by simp [e])
    have hcs : sep ∉ cs := fun m => h (List.mem_cons_of_mem _ m)
    simp [bytesSplit, hc, bytesSplit_append sep b cs hcs]

theorem bytesSplit_three (a b c : Bytes) (ha : 124 ∉ a) (hb : 124 ∉ b) (hc : 124 ∉ c) :
    bytesSplit (a ++ 124 :: (b ++ 124 :: c)) 124 = [a, b, c] := by
  rw [bytesSplit_append 124 _ a ha, bytesSplit_append 124 _ b hb, bytesSplit_of_not_mem 124 c hc]

theorem stringsJoin_three (a b c : Bytes) :
    stringsJoin [a, b, c] (str "|") = a ++ 124 :: (b ++ 124 :: c) := by
  simp [stringsJoin, str_bar]

theorem beBytes_length : ∀ n x, (beBytes n x).length = n
  | 0, _ => rfl
  | n+1, x => by simp [beBytes, beBytes_length n x]

theorem beBytes_lt : ∀ n x, ∀ y ∈ beBytes n x, y < 256
  | 0, _ => by simp [beBytes]
  | n+1, x => by
    intro y hy
    simp only [beBytes, List.mem_cons] at hy
    rcases hy with h | h
    · subst h; exact Nat.mod_lt _ (by decide)
    · exact beBytes_lt n x y h

theorem sha1Sum_length (msg : Bytes) : (sha1Sum msg).length = 20 := by
  simp [sha1Sum, beBytes_length]

theorem sha1Sum_lt (msg : Bytes) : ∀ y ∈ sha1Sum msg, y < 256 := by
  intro y hy
  simp only [sha1Sum, List.mem_append] at hy
  rcases hy with (((h | h) | h) | h) | h <;> exact beBytes_lt _ _ y h

theorem hextable_getD_ne (k : Nat) : hextable.getD k 0 ≠ 124 := by
  by_cases hk : k < 16
  · interval_cases k <;> decide
  · have : hextable.length ≤ k := by
      have : hextable.length = 16 := by decide
      omega
    rw [List.getD_eq_default _ _ this]; decide

theorem hextable_getD_pos (k : Nat) (hk : k < 16) : hextable.getD k 0 ≠ 0 := by
  interval_cases k <;> decide

theorem hexEncodeToList_length : ∀ src : Bytes, (hexEncodeToList src).length = 2 * src.length
  | [] => rfl
  | v :: rest => by simp [hexEncodeToList, hexEncodeToList_length rest]; omega

theorem hexEncodeToList_no_bar : ∀ src : Bytes, 124 ∉ hexEncodeToList src
  | [] => by simp [hexEncodeToList]
  | v :: rest => by
    have := hexEncodeToList_no_bar rest
    simp only [hexEncodeToList, List.mem_cons, not_or]
    exact ⟨fun h => hextable_getD_ne _ h.symm, fun h => hextable_getD_ne _ h.symm, this⟩

theorem hexEncodeToList_no_zero : ∀ src : Bytes, (∀ v ∈ src, v < 256) → 0 ∉ hexEncodeToList src
  | [], _ => by simp [hexEncodeToList]
  | v :: rest, h => by
    have ih := hexEncodeToList_no_zero rest (fun w hw => h w (List.mem_cons_of_mem _ hw))
    have hv : v < 256 := h v (List.mem_cons_self _ _)
    simp only [hexEncodeToList, List.mem_cons, not_or]
    exact ⟨fun e => hextable_getD_pos _ (by omega) e.symm,
      fun e => hextable_getD_pos _ (by omega) e.symm, ih⟩

theorem bytesIndex_append (c : Nat) (rest : Bytes) :
    ∀ a : Bytes, c ∉ a → bytesIndex (a ++ c :: rest) c = Int.ofNat a.length
  | [], _ => by simp [bytesIndex]
  | x :: xs, h => by
    have hx : x ≠ c := fun e => h (by simp [e])
    have hxs : c ∉ xs := fun m => h (List.mem_cons_of_mem _ m)
    simp [bytesIndex, hx, bytesIndex_append c rest xs hxs]

theorem foldl_Write (parts : List Bytes) : ∀ h : HMAC,
    parts.foldl HMAC.Write h = ⟨h.ipad, h.opad, h.inner ++ parts.flatten⟩ := by
  induction parts with
  | nil => intro h; simp
  | cons p ps ih => intro h; simp [ih, HMAC.Write, List.append_assoc]

theorem hmacSum_length (h : HMAC) : h.Sum.length = 20 := sha1Sum_length _

theorem createSignature_eq (secret : Bytes) (parts : List Bytes) :
    createSignature secret parts = hexEncodeToList (hmacSHA1 secret parts.flatten) := by
  have hd : (parts.foldl HMAC.Write (hmacNew secret)).Sum = hmacSHA1 secret parts.flatten := by
    rw [foldl_Write]; rfl
  have hlen : (hmacSHA1 secret parts.flatten).length = 20 := hmacSum_length _
  have hz : 0 ∉ hexEncodeToList (hmacSHA1 secret parts.flatten) :=
    hexEncodeToList_no_zero _ (sha1Sum_lt _)
  have hrep : (List.replicate 64 0 : Bytes).drop (2 * 20) = 0 :: List.replicate 23 0 := by decide
  unfold createSignature
  simp only [hd, hexEncode, hlen, hrep]
  rw [bytesIndex_append 0 _ _ hz]
  simp

theorem createSignature_no_bar (secret : Bytes) (parts : List Bytes) :
    124 ∉ createSignature secret parts := by
  rw [createSignature_eq]; exact hexEncodeToList_no_bar _

theorem encodeURL_getD_ne : ∀ j, j < 64 → encodeURL.getD j 0 ≠ 124 := by decide!

theorem b64Char_ne_bar (i : Nat) : b64Char i ≠ 124 :=
  encodeURL_getD_ne _ (Nat.mod_lt _ (by decide))

theorem base64EncodeToString_no_bar : ∀ v : Bytes, 124 ∉ base64EncodeToString v
  | [] => by simp [base64EncodeToString]
  | [a] => by
    simp only [base64EncodeToString, List.mem_cons, not_or]
    exact ⟨fun h => b64Char_ne_bar _ h.symm, fun h => b64Char_ne_bar _ h.symm, by decide, by decide,
      by simp⟩
  | [a, b] => by
    simp only [base64EncodeToString, List.mem_cons, not_or]
    exact ⟨fun h => b64Char_ne_bar _ h.symm, fun h => b64Char_ne_bar _ h.symm,
      fun h => b64Char_ne_bar _ h.symm, by decide, by simp⟩
  | a :: b :: c :: rest => by
    have ih := base64EncodeToString_no_bar rest
    simp only [base64EncodeToString, List.mem_cons, not_or]
    exact ⟨fun h => b64Char_ne_bar _ h.symm, fun h => b64Char_ne_bar _ h.symm,
      fun h => b64Char_ne_bar _ h.symm, fun h => b64Char_ne_bar _ h.symm, ih⟩

theorem digitVal_digit (c : Nat) (h : 48 ≤ c ∧ c ≤ 57) : digitVal c = some (c - 48) := by
  simp [digitVal, h]

theorem digitVal_other (c : Nat) (h : ¬ (48 ≤ c ∧ c ≤ 57)) :
    digitVal c = none ∨ ∃ d, digitVal c = some d ∧ 10 ≤ d := by
  unfold digitVal
  rw [if_neg h]
  by_cases h2 : 97 ≤ lower c ∧ lower c ≤ 122
  · right; exact ⟨_, by rw [if_pos h2], by omega⟩
  · left; rw [if_neg h2]

theorem decimalValueFrom_cons (n c : Nat) (cs : Bytes) :
    decimalValueFrom n (c :: cs) = decimalValueFrom (n * 10 + (c - 48)) cs := rfl

theorem le_decimalValueFrom : ∀ (ds : Bytes) (n : Nat), n ≤ decimalValueFrom n ds
  | [], n => Nat.le_refl _
  | c :: cs, n => by
    rw [decimalValueFrom_cons]
    have := le_decimalValueFrom cs (n * 10 + (c - 48))
    omega

theorem decimalValueFrom_append (n : Nat) (xs ys : Bytes) :
    decimalValueFrom n (xs ++ ys) = decimalValueFrom (decimalValueFrom n xs) ys := by
  simp [decimalValueFrom, List.foldl_append]

theorem parseDigits_digits : ∀ (ds : Bytes) (n : Nat) (us : Bool),
    (∀ c ∈ ds, 48 ≤ c ∧ c ≤ 57) → n < 18446744073709551616 →
    parseDigits 10 true 1844674407370955162 18446744073709551615 ds n us =
      if decimalValueFrom n ds < 18446744073709551616 then .ok (decimalValueFrom n ds, us)
      else .error .outOfRange
  | [], n, us, _, hn => by simp [parseDigits, decimalValueFrom, hn]
  | c :: cs, n, us, h, hn => by
    have hc : 48 ≤ c ∧ c ≤ 57 := h c (List.mem_cons_self _ _)
    have hcs : ∀ x ∈ cs, 48 ≤ x ∧ x ≤ 57 := fun x hx => h x (List.mem_cons_of_mem _ hx)
    have hmono := le_decimalValueFrom cs (n * 10 + (c - 48))
    have h95 : ¬ (c = 95 ∧ true = true) := by omega
    rw [decimalValueFrom_cons]
    unfold parseDigits
    rw [if_neg h95, digitVal_digit c hc]
    simp only []
    have hd : ¬ (c - 48 ≥ 10) := by omega
    rw [if_neg hd]
    by_cases hcut : n ≥ 1844674407370955162
    · rw [if_pos hcut, if_neg (by omega)]
    · rw [if_neg hcut]
      by_cases hov : n * 10 + (c - 48) < 18446744073709551616
      · have e : (n * 10 + (c - 48)) % 18446744073709551616 = n * 10 + (c - 48) :=
          Nat.mod_eq_of_lt hov
        rw [e, if_neg (by omega)]
        exact parseDigits_digits cs _ us hcs hov
      · rw [if_pos (by omega), if_neg (by omega)]

theorem parseDigits_bad : ∀ (ds : Bytes) (n : Nat) (us : Bool), 95 ∉ ds →
    (∃ c ∈ ds, ¬ (48 ≤ c ∧ c ≤ 57)) →
    ∃ e, parseDigits 10 true 1844674407370955162 18446744073709551615 ds n us = .error e
  | [], _, _, _, h => by simp at h
  | c :: cs, n, us, h95, h => by
    have hc95 : ¬ (c = 95 ∧ true = true) := fun e => h95 (by simp [e.1])
    have hcs95 : 95 ∉ cs := fun m => h95 (List.mem_cons_of_mem _ m)
    unfold parseDigits
    rw [if_neg hc95]
    by_cases hc : 48 ≤ c ∧ c ≤ 57
    · have hrest : ∃ x ∈ cs, ¬ (48 ≤ x ∧ x ≤ 57) := by
        obtain ⟨x, hx, hbad⟩ := h
        rcases List.mem_cons.mp hx with e | e
        · subst e; exact absurd hc hbad
        · exact ⟨x, e, hbad⟩
      rw [digitVal_digit c hc]
      simp only []
      split
      · exact ⟨_, rfl⟩
      · split
        · exact ⟨_, rfl⟩
        · split
          · exact ⟨_, rfl⟩
          · exact parseDigits_bad cs _ us hcs95 hrest
    · rcases digitVal_other c hc with e | ⟨d, e, hd⟩
      · rw [e]; exact ⟨_, rfl⟩
      · rw [e]; simp only []; rw [if_pos hd]; exact ⟨_, rfl⟩

theorem formatDigits_digit : ∀ (f u : Nat), ∀ c ∈ formatDigits f u, 48 ≤ c ∧ c ≤ 57
  | 0, _ => by simp [formatDigits]
  | f+1, u => by
    intro c hc
    unfold formatDigits at hc
    split at hc
    · simp at hc; omega
    · rcases List.mem_append.mp hc with h | h
      · exact formatDigits_digit f _ c h
      · simp at h; omega

theorem formatDigits_value : ∀ (f u : Nat), u < 10 ^ f → decimalValueFrom 0 (formatDigits f u) = u
  | 0, u => by intro h; simp at h; subst h; rfl
  | f+1, u => by
    intro h
    unfold formatDigits
    split
    · simp [decimalValueFrom]
    · have h10 : u / 10 < 10 ^ f := by
        rw [Nat.div_lt_iff_lt_mul (by decide)]; rw [pow_succ] at h; exact h
      rw [decimalValueFrom_append, formatDigits_value f _ h10]
      simp [decimalValueFrom]
      omega

theorem formatDigits_head : ∀ (f u : Nat), 0 < u → u < 10 ^ f →
    ∃ c t, formatDigits f u = c :: t ∧ 49 ≤ c ∧ c ≤ 57
  | 0, u => by intro h0 h; simp at h; omega
  | f+1, u => by
    intro h0 h
    unfold formatDigits
    split
    · exact ⟨48 + u, [], rfl, by omega, by omega⟩
    · have h10 : u / 10 < 10 ^ f := by
        rw [Nat.div_lt_iff_lt_mul (by decide)]; rw [pow_succ] at h; exact h
      obtain ⟨c, t, e, hc⟩ := formatDigits_head f (u / 10) (by omega) h10
      exact ⟨c, t ++ [48 + u % 10], by rw [e]; rfl, hc⟩

theorem ParseUint_formatDigits (u : Nat) (hu : u < 18446744073709551616) :
    ParseUint (formatDigits 20 u) = .ok u := by
  rcases Nat.eq_zero_or_pos u with h0 | h0
  · subst h0; decide
  · have h20 : u < 10 ^ 20 := by omega
    obtain ⟨c, t, e, hc⟩ := formatDigits_head 20 u h0 h20
    have hdig := formatDigits_digit 20 u
    have hval := formatDigits_value 20 u h20
    rw [e] at hdig hval
    have hbase : basePrefix (c :: t) = (10, c :: t) := by
      unfold basePrefix
      rw [if_neg (by simp; omega)]
    rw [e]
    unfold ParseUint
    rw [if_neg (by simp), hbase]
    simp only []
    have hcut : 18446744073709551615 / 10 + 1 = 1844674407370955162 := by decide
    rw [hcut, parseDigits_digits (c :: t) 0 false hdig (by decide), hval, if_pos hu]
    simp

theorem ParseInt_minus (rest : Bytes) (u : Nat) (h : ParseUint rest = .ok u)
    (hu : u ≤ 9223372036854775808) : ParseInt (45 :: rest) = .ok (- (Int.ofNat u)) := by
  simp [ParseInt, h]
  omega

theorem ParseInt_unsigned (c : Nat) (t : Bytes) (u : Nat) (hc : c ≠ 43 ∧ c ≠ 45)
    (h : ParseUint (c :: t) = .ok u) (hu : u < 9223372036854775808) :
    ParseInt (c :: t) = .ok (Int.ofNat u) := by
  simp [ParseInt, hc.1, hc.2, h]
  omega

theorem ParseInt_FormatInt (i : Int) (hlo : -9223372036854775808 ≤ i)
    (hhi : i < 9223372036854775808) : ParseInt (FormatInt i) = .ok i := by
  unfold FormatInt
  by_cases hneg : i < 0
  · rw [if_pos hneg]
    have hu : (-i).toNat < 18446744073709551616 := by omega
    rw [ParseInt_minus _ _ (ParseUint_formatDigits _ hu) (by omega)]
    congr 1
    show -((((-i).toNat : Nat) : Int)) = i
    omega
  · rw [if_neg hneg]
    have hu : i.toNat < 18446744073709551616 := by omega
    rcases Nat.eq_zero_or_pos i.toNat with h0 | h0
    · have : i = 0 := by omega
      subst this; decide
    · obtain ⟨c, t, e, hc⟩ := formatDigits_head 20 i.toNat h0 (by omega)
      have hP := ParseUint_formatDigits _ hu
      rw [e] at hP ⊢
      rw [ParseInt_unsigned c t _ (by omega) hP (by omega)]
      congr 1
      show ((i.toNat : Nat) : Int) = i
      omega

theorem wrapInt64_range (x : Int) :
    -9223372036854775808 ≤ wrapInt64 x ∧ wrapInt64 x < 9223372036854775808 := by
  unfold wrapInt64; omega

theorem lookupFrom_offset_bound : ∀ (tx : List ZoneTrans) (offset start sec : Int),
    -89999 ≤ offset → offset ≤ 93599 →
    -89999 ≤ (lookupFrom offset start tx sec).offset ∧
      (lookupFrom offset start tx sec).offset ≤ 93599
  | [], _, _, _, h1, h2 => ⟨h1, h2⟩
  | tr :: rest, offset, start, sec, h1, h2 => by
    unfold lookupFrom
    split
    · exact ⟨h1, h2⟩
    · have hb := tr.utoff.isLt
      exact lookupFrom_offset_bound rest _ _ sec (by omega) (by omega)

theorem lookup_offset_bound (l : Location) (sec : Int) :
    -89999 ≤ (l.lookup sec).offset ∧ (l.lookup sec).offset ≤ 93599 := by
  have hb := l.first.isLt
  exact lookupFrom_offset_bound l.tx _ _ sec (by omega) (by omega)

theorem AddDate_ext (t : Time) (days : Int) :
    t.ext + days * 86400 - 183598 ≤ (t.AddDate days).ext ∧
      (t.AddDate days).ext ≤ t.ext + days * 86400 + 183598 := by
  have h1 := lookup_offset_bound t.loc (t.ext - unixToInternal)
  have h2 := lookup_offset_bound t.loc
    (t.ext - unixToInternal + (t.loc.lookup (t.ext - unixToInternal)).offset + days * 86400)
  have h3 := lookup_offset_bound t.loc
    (t.ext - unixToInternal + (t.loc.lookup (t.ext - unixToInternal)).offset + days * 86400
      - (t.loc.lookup (t.ext - unixToInternal
          + (t.loc.lookup (t.ext - unixToInternal)).offset + days * 86400)).offset)
  simp only [Time.AddDate]
  split
  · split
    · constructor <;> omega
    · constructor <;> omega
  · constructor <;> omega

theorem FormatInt_no_bar (i : Int) : 124 ∉ FormatInt i := by
  unfold FormatInt
  intro h
  split at h
  · rcases List.mem_cons.mp h with e | e
    · omega
    · have := formatDigits_digit _ _ _ e; omega
  · have := formatDigits_digit _ _ _ h; omega

theorem bytesSplit_length : ∀ (s : Bytes) (sep : Nat),
    (bytesSplit s sep).length = s.count sep + 1
  | [], _ => rfl
  | c :: cs, sep => by
    have ih := bytesSplit_length cs sep
    unfold bytesSplit
    by_cases h : c = sep
    · rw [if_pos h]; subst h; simp [ih]
    · rw [if_neg h]
      have hc : (c :: cs).count sep = cs.count sep := by
        rw [List.count_cons]; simp [h]
      cases hs : bytesSplit cs sep with
      | nil => rw [hs] at ih; simp at ih
      | cons p ps => rw [hs] at ih; simp at ih ⊢; omega

theorem DecodeSignedValue_of_split (now : Time) (secret name token v ts sig : Bytes)
    (hsplit : bytesSplit token 124 = [v, ts, sig]) :
    DecodeSignedValue now secret name token =
      if sig = createSignature secret [name, v, ts] then
        match checkTimestamp now ts with
        | some err => .error err
        | none =>
          match base64DecodeString v with
          | some data => .ok data
          | none => .ok []
      else .error .invalidSignature := by
  have hne : token ≠ [] := by
    intro e; subst e; simp [bytesSplit] at hsplit
  unfold DecodeSignedValue
  rw [if_neg hne, hsplit]
  simp only [bytesEqual]
  by_cases h : sig = createSignature secret [name, v, ts]
  · simp [h]
  · simp [h]

theorem DecodeSignedValue_incomplete (now : Time) (secret name token : Bytes)
    (hne : token ≠ []) (hlen : (bytesSplit token 124).length ≠ 3) :
    DecodeSignedValue now secret name token = .error .incomplete := by
  unfold DecodeSignedValue
  rw [if_neg hne]
  split
  · rename_i h; rw [h] at hlen; simp at hlen
  · rfl

theorem CreateSignedValue_eq (secret name value : Bytes) (t : Time) :
    CreateSignedValue secret name value t =
      base64EncodeToString value ++ 124 :: (FormatInt t.Unix ++ 124 ::
        createSignature secret [name, base64EncodeToString value, FormatInt t.Unix]) := by
  unfold CreateSignedValue
  simp only []
  rw [stringsJoin_three]

theorem CreateSignedValue_split (secret name value : Bytes) (t : Time) :
    bytesSplit (CreateSignedValue secret name value t) 124 =
      [base64EncodeToString value, FormatInt t.Unix,
        createSignature secret [name, base64EncodeToString value, FormatInt t.Unix]] := by
  rw [CreateSignedValue_eq]
  exact bytesSplit_three _ _ _ (base64EncodeToString_no_bar _) (FormatInt_no_bar _)
    (createSignature_no_bar _ _)

theorem checkTimestamp_leading_zero (now : Time) (ts : Bytes) (h0 : ts.head? = some 48) :
    ∃ e, checkTimestamp now ts = some e := by
  have ht : cookieIsTampered ts = true := by
    cases ts with
    | nil => simp at h0
    | cons c cs =>
      simp at h0; subst h0
      simp [cookieIsTampered, bytesHasPrefix, str_zero]
  unfold checkTimestamp
  cases ParseInt ts with
  | error e => exact ⟨_, rfl⟩
  | ok t =>
    simp only [ht]
    split
    · exact ⟨_, rfl⟩
    · split
      · exact ⟨_, rfl⟩
      · exact ⟨_, rfl⟩

theorem ParseUint_ok_decimal (ds : Bytes) (hd0 : ds.head? ≠ some 48) (h95 : 95 ∉ ds)
    (u : Nat) (h : ParseUint ds = .ok u) :
    ds ≠ [] ∧ (∀ c ∈ ds, 48 ≤ c ∧ c ≤ 57) ∧ u = decimalValueFrom 0 ds := by
  have hne : ds ≠ [] := by
    intro e; subst e; simp [ParseUint] at h
  have hbase : basePrefix ds = (10, ds) := by
    unfold basePrefix
    rw [if_neg]
    cases ds with
    | nil => exact absurd rfl hne
    | cons c cs => simp at hd0 ⊢; exact hd0
  have hcut : 18446744073709551615 / 10 + 1 = 1844674407370955162 := by decide
  unfold ParseUint at h
  rw [if_neg hne, hbase] at h
  simp only [] at h
  rw [hcut] at h
  by_cases hall : ∀ c ∈ ds, 48 ≤ c ∧ c ≤ 57
  · refine ⟨hne, hall, ?_⟩
    rw [parseDigits_digits ds 0 false hall (by decide)] at h
    by_cases hlt : decimalValueFrom 0 ds < 18446744073709551616
    · rw [if_pos hlt] at h
      simp at h; exact h.symm
    · rw [if_neg hlt] at h
      simp at h
  · have hbad : ∃ c ∈ ds, ¬ (48 ≤ c ∧ c ≤ 57) := by
      by_contra hc
      exact hall (fun c hcm => by_contra (fun hn => hc ⟨c, hcm, hn⟩))
    obtain ⟨e, he⟩ := parseDigits_bad ds 0 false h95 hbad
    rw [he] at h
    simp at h

theorem ParseInt_error (c0 : Nat) (rest : Bytes)
    (h : ∀ u, ParseUint (if c0 = 43 ∨ c0 = 45 then rest else c0 :: rest) = .ok u →
      if c0 = 45 then 9223372036854775808 < u else 9223372036854775808 ≤ u) :
    ∃ e, ParseInt (c0 :: rest) = .error e := by
  unfold ParseInt
  simp only []
  cases hP : ParseUint (if c0 = 43 ∨ c0 = 45 then rest else c0 :: rest) with
  | error e =>
    cases e
    · exact ⟨_, rfl⟩
    · by_cases hc : c0 = 45
      · simp [hc]
      · simp [hc]
  | ok u =>
    have hu := h u hP
    by_cases hc : c0 = 45
    · rw [if_pos hc] at hu
      simp [hc, hu]
    · rw [if_neg hc] at hu
      simp [hc, hu]

theorem checkTimestamp_of_ParseInt_error (now : Time) (s : Bytes)
    (h : ∃ e, ParseInt s = .error e) : checkTimestamp now s = some .invalidTimestamp := by
  obtain ⟨e, he⟩ := h
  unfold checkTimestamp
  rw [he]

theorem hextable_getD_hex (k : Nat) (hk : k < 16) :
    (48 ≤ hextable.getD k 0 ∧ hextable.getD k 0 ≤ 57) ∨
      (97 ≤ hextable.getD k 0 ∧ hextable.getD k 0 ≤ 102) := by
  interval_cases k <;> decide

theorem hexEncodeToList_hex : ∀ src : Bytes, (∀ v ∈ src, v < 256) →
    ∀ c ∈ hexEncodeToList src, (48 ≤ c ∧ c ≤ 57) ∨ (97 ≤ c ∧ c ≤ 102)
  | [], _ => by simp [hexEncodeToList]
  | v :: rest, h => by
    have ih := hexEncodeToList_hex rest (fun w hw => h w (List.mem_cons_of_mem _ hw))
    have hv : v < 256 := h v (List.mem_cons_self _ _)
    intro c hc
    simp only [hexEncodeToList, List.mem_cons] at hc
    rcases hc with e | e | e
    · rw [e]; exact hextable_getD_hex _ (by omega)
    · rw [e]; exact hextable_getD_hex _ (by omega)
    · exact ih c e

theorem bytesIndex_scratch (secret : Bytes) (parts : List Bytes) :
    bytesIndex (hexEncode (List.replicate 64 0) (parts.foldl HMAC.Write (hmacNew secret)).Sum) 0
      = 40 := by
  have hlen : ((parts.foldl HMAC.Write (hmacNew secret)).Sum).length = 20 := hmacSum_length _
  have hz : 0 ∉ hexEncodeToList ((parts.foldl HMAC.Write (hmacNew secret)).Sum) :=
    hexEncodeToList_no_zero _ (sha1Sum_lt _)
  have hrep : (List.replicate 64 0 : Bytes).drop (2 * 20) = 0 :: List.replicate 23 0 := by decide
  simp only [hexEncode, hlen, hrep]
  rw [bytesIndex_append 0 _ _ hz, hexEncodeToList_length, hlen]
  rfl

theorem base64EncodeToString_length_ge : ∀ v : Bytes, v.length ≤ (base64EncodeToString v).length
  | [] => by simp [base64EncodeToString]
  | [a] => by simp [base64EncodeToString]
  | [a, b] => by simp [base64EncodeToString]
  | a :: b :: c :: rest => by
    have ih := base64EncodeToString_length_ge rest
    simp only [base64EncodeToString, List.length_cons]
    omega

theorem findCookie_none : ∀ (cookies : List Cookie) (name : Bytes),
    (∀ c ∈ cookies, c.Name ≠ name) → findCookie cookies name = none
  | [], _, _ => rfl
  | x :: xs, name, h => by
    have hx : x.Name ≠ name := h x (List.mem_cons_self _ _)
    simp only [findCookie, if_neg hx]
    exact findCookie_none xs name (fun c hc => h c (List.mem_cons_of_mem _ hc))

theorem findCookie_first (c : Cookie) (post : List Cookie) (name : Bytes) (hc : c.Name = name) :
    ∀ pre : List Cookie, (∀ x ∈ pre, x.Name ≠ name) →
      findCookie (pre ++ c :: post) name = some c
  | [], _ => by simp [findCookie, hc]
  | x :: xs, h => by
    have hx : x.Name ≠ name := h x (List.mem_cons_self _ _)
    simp only [List.cons_append, findCookie, if_neg hx]
    exact findCookie_first c post name hc xs (fun y hy => h y (List.mem_cons_of_mem _ hy))

theorem decimalValueFrom_shift : ∀ (ds : Bytes) (n : Nat),
    decimalValueFrom n ds = n * 10 ^ ds.length + decimalValueFrom 0 ds
  | [], n => by simp [decimalValueFrom]
  | c :: cs, n => by
    rw [decimalValueFrom_cons, decimalValueFrom_cons, decimalValueFrom_shift cs (n * 10 + (c - 48)),
      decimalValueFrom_shift cs (0 * 10 + (c - 48))]
    simp only [List.length_cons, pow_succ]
    ring

theorem decimalValueFrom_lt : ∀ (ds : Bytes), (∀ c ∈ ds, 48 ≤ c ∧ c ≤ 57) →
    decimalValueFrom 0 ds < 10 ^ ds.length
  | [], _ => by simp [decimalValueFrom]
  | c :: cs, h => by
    have hc := h c (List.mem_cons_self _ _)
    have ih := decimalValueFrom_lt cs (fun x hx => h x (List.mem_cons_of_mem _ hx))
    rw [decimalValueFrom_cons, decimalValueFrom_shift]
    simp only [List.length_cons, pow_succ]
    have h9 : 0 * 10 + (c - 48) ≤ 9 := by omega
    have := Nat.mul_le_mul_right (10 ^ cs.length) h9
    omega

theorem ParseUint_decimal (ds : Bytes) (c : Nat) (t : Bytes) (hds : ds = c :: t) (hc : c ≠ 48)
    (hall : ∀ x ∈ ds, 48 ≤ x ∧ x ≤ 57) :
    ParseUint ds = if decimalValueFrom 0 ds < 18446744073709551616
      then .ok (decimalValueFrom 0 ds) else .error .outOfRange := by
  have hne : ds ≠ [] := by rw [hds]; simp
  have hbase : basePrefix ds = (10, ds) := by
    unfold basePrefix
    rw [if_neg]
    rw [hds]; simpa using hc
  have hcut : 18446744073709551615 / 10 + 1 = 1844674407370955162 := by decide
  unfold ParseUint
  rw [if_neg hne, hbase]
  simp only []
  rw [hcut, parseDigits_digits ds 0 false hall (by decide)]
  by_cases hlt : decimalValueFrom 0 ds < 18446744073709551616
  · rw [if_pos hlt, if_pos hlt]; simp
  · rw [if_neg hlt, if_neg hlt]

theorem checkTimestamp_shifted (now : Time) (d : Bytes) (t : Int)
    (ht : 10000000 ≤ t) (ht2 : t < 9223372036854775808)
    (hwin : t - 2678400 ≤ now.ext - unixToInternal ∧ now.ext - unixToInternal ≤ t + 2678400)
    (hd : d ≠ []) (hdig : ∀ c ∈ d, 48 ≤ c ∧ c ≤ 57) :
    ∃ e, checkTimestamp now (d ++ FormatInt t) = some e := by
  cases d with
  | nil => exact absurd rfl hd
  | cons c cs =>
    by_cases hc0 : c = 48
    · exact checkTimestamp_leading_zero now _ (by simp [hc0])
    · have hc := hdig c (List.mem_cons_self _ _)
      have hF : FormatInt t = formatDigits 20 t.toNat := by
        unfold FormatInt; rw [if_neg (by omega)]
      have hall : ∀ x ∈ c :: (cs ++ formatDigits 20 t.toNat), 48 ≤ x ∧ x ≤ 57 := by
        intro x hx
        rcases List.mem_cons.mp hx with e | e
        · rw [e]; exact hc
        · rcases List.mem_append.mp e with e | e
          · exact hdig x (List.mem_cons_of_mem _ e)
          · exact formatDigits_digit _ _ x e
      have hT : decimalValueFrom 0 (formatDigits 20 t.toNat) = t.toNat :=
        formatDigits_value 20 _ (by omega)
      have hTlt := decimalValueFrom_lt (formatDigits 20 t.toNat) (formatDigits_digit _ _)
      have hD : 1 ≤ decimalValueFrom 0 (c :: cs) := by
        rw [decimalValueFrom_cons]
        have := le_decimalValueFrom cs (0 * 10 + (c - 48))
        omega
      have hval : decimalValueFrom 0 (c :: (cs ++ formatDigits 20 t.toNat)) =
          decimalValueFrom 0 (c :: cs) * 10 ^ (formatDigits 20 t.toNat).length + t.toNat := by
        rw [← List.cons_append, decimalValueFrom_append, decimalValueFrom_shift, hT]
      have hbig : 2 * t.toNat < decimalValueFrom 0 (c :: (cs ++ formatDigits 20 t.toNat)) := by
        rw [hval]
        have := Nat.mul_le_mul_right (10 ^ (formatDigits 20 t.toNat).length) hD
        rw [hT] at hTlt
        omega
      have hP := ParseUint_decimal (c :: (cs ++ formatDigits 20 t.toNat)) c _ rfl hc0 hall
      rw [hF, List.cons_append]
      generalize decimalValueFrom 0 (c :: (cs ++ formatDigits 20 t.toNat)) = val at hP hbig
      by_cases hr : val < 9223372036854775808
      · rw [if_pos (by omega)] at hP
        have hI := ParseInt_unsigned c _ val (by omega) hP hr
        unfold checkTimestamp
        rw [hI]
        simp only []
        by_cases hexp : cookieIsExpired now (timeUnix (Int.ofNat val)) = true
        · rw [if_pos hexp]; exact ⟨_, rfl⟩
        · rw [if_neg hexp]
          have hfut : cookieIsFromFuture now (timeUnix (Int.ofNat val)) = true := by
            have hb1 := AddDate_ext now (-31)
            have hb2 := AddDate_ext now 31
            simp only [cookieIsExpired, Time.Before, timeUnix, wrapInt64,
              Bool.or_eq_true, Bool.and_eq_true, decide_eq_true_eq] at hexp
            simp only [cookieIsFromFuture, Time.After, timeUnix, wrapInt64,
              Bool.or_eq_true, Bool.and_eq_true, decide_eq_true_eq]
            unfold unixToInternal at hwin hexp ⊢
            have hv : (Int.ofNat val) = (val : Int) := rfl
            rw [hv] at hexp ⊢
            omega
          rw [if_pos hfut]; exact ⟨_, rfl⟩
      · refine ⟨.invalidTimestamp, checkTimestamp_of_ParseInt_error now _ ?_⟩
        apply ParseInt_error
        intro u hu
        have hns : ¬ (c = 43 ∨ c = 45) := by omega
        rw [if_neg hns] at hu
        rw [if_neg (by omega)]
        rw [hP] at hu
        split at hu
        · simp at hu; omega
        · simp at hu

/-- C2: the fixed vector. `CreateSignedValue` with the secret, the name
`oauth_user_id`, the value `706446730` and the creation time Unix 1371237542
returns exactly `NzA2NDQ2NzMw|1371237542|334de90e34d9e1ffab881002dc90d2b8b2614333`,
which is the base64 text of the value, the decimal seconds and the lowercase
hexadecimal HMAC-SHA1 of name, encoded value and timestamp concatenated. -/
theorem fixed_vector :
    CreateSignedValue (str "sN?^WvQiOkv)QXhQwQZ>JH!YY/q(v%TY") (str "oauth_user_id")
        (str "706446730") (timeUnix 1371237542)
      = str "NzA2NDQ2NzMw|1371237542|334de90e34d9e1ffab881002dc90d2b8b2614333" ∧
    base64EncodeToString (str "706446730") = str "NzA2NDQ2NzMw" ∧
    FormatInt (timeUnix 1371237542).Unix = str "1371237542" ∧
    hexEncodeToList (hmacSHA1 (str "sN?^WvQiOkv)QXhQwQZ>JH!YY/q(v%TY")
        (str "oauth_user_id" ++ str "NzA2NDQ2NzMw" ++ str "1371237542"))
      = str "334de90e34d9e1ffab881002dc90d2b8b2614333" := by
  decide!

/-- C3: the token issued for the name `a` and the value `foobar` is
`Zm9vYmFy|1371237542|sig`; with the first four characters of the value segment
moved to the end of the name, `YmFy|1371237542|sig` decodes without error under
the name `aZm9v`, to the value `bar`. -/
theorem resplit_token_accepted :
    CreateSignedValue (str "k") (str "a") (str "foobar") (timeUnix 1371237542)
        = str "Zm9vYmFy|1371237542|a6eeb4da9ebc16f5b443987bf7d3d0347c8ff86c" ∧
      (str "aZm9v", str "YmFy", str "1371237542")
        ≠ (str "a", str "Zm9vYmFy", str "1371237542") ∧
      DecodeSignedValue (timeUnix 1371237542) (str "k") (str "aZm9v")
          (str "YmFy|1371237542|a6eeb4da9ebc16f5b443987bf7d3d0347c8ff86c")
        = .ok (str "bar") := by
  decide!

/-- C5: the value segment `!` is not base64, its signature and timestamp are
valid, and `DecodeSignedValue` returns the empty payload with no error. -/
theorem malformed_payload_decodes_empty :
    base64DecodeString (str "!") = none ∧
      createSignature (str "secret") [str "foo", str "!", str "1371237542"]
        = str "3e2c80e9812944de4971a6af338062fbee8feb98" ∧
      checkTimestamp (timeUnix 1371237542) (str "1371237542") = none ∧
      DecodeSignedValue (timeUnix 1371237542) (str "secret") (str "foo")
          (str "!|1371237542|3e2c80e9812944de4971a6af338062fbee8feb98")
        = .ok [] := by
  decide!

/-- C6: for a token that splits on `|` into exactly three segments `v`, `ts`,
`sig`, a signature segment different from `createSignature(secret, name, v, ts)`
gives the invalid-signature error, whatever `v` and `ts` hold. -/
theorem signature_gates (now : Time) (secret name token v ts sig : Bytes)
    (hsplit : bytesSplit token 124 = [v, ts, sig])
    (hsig : sig ≠ createSignature secret [name, v, ts]) :
    DecodeSignedValue now secret name token = .error .invalidSignature := by
  rw [DecodeSignedValue_of_split _ _ _ _ _ _ _ hsplit, if_neg hsig]

/-- The token `QQ==|1371237542|deadbeef` has three segments and a signature
segment that is not the signature: it gets the invalid-signature error. -/
theorem signature_gates_witness :
    bytesSplit (str "QQ==|1371237542|deadbeef") 124
        = [str "QQ==", str "1371237542", str "deadbeef"] ∧
    str "deadbeef" ≠ createSignature (str "k") [str "a", str "QQ==", str "1371237542"] ∧
    DecodeSignedValue (timeUnix 1371237542) (str "k") (str "a")
        (str "QQ==|1371237542|deadbeef") = .error .invalidSignature :=
  ⟨by decide, by decide!,
    signature_gates (timeUnix 1371237542) (str "k") (str "a") (str "QQ==|1371237542|deadbeef")
      (str "QQ==") (str "1371237542") (str "deadbeef") (by decide) (by decide!)⟩

/-- C7, counterexample: with the clock at Unix time 1371237542 the timestamp text
`0` is Expired and the text `09` is an invalid timestamp; neither is Tampered. -/
theorem leading_zero_not_tampered :
    checkTimestamp (timeUnix 1371237542) (str "0") = some .expired ∧
      checkTimestamp (timeUnix 1371237542) (str "09") = some .invalidTimestamp := by
  decide!

/-- C7 (amended): a timestamp text that starts with `0` always gets an error from
`checkTimestamp`, and the error is Tampered exactly when the text parses (base 0)
to an instant that is neither expired nor from the future. -/
theorem leading_zero_error (now : Time) (ts : Bytes) (h0 : ts.head? = some 48) :
    (∃ e, checkTimestamp now ts = some e) ∧
    (checkTimestamp now ts = some .tampered ↔
      ∃ t, ParseInt ts = .ok t ∧ cookieIsExpired now (timeUnix t) = false ∧
        cookieIsFromFuture now (timeUnix t) = false) := by
  refine ⟨checkTimestamp_leading_zero now ts h0, ?_⟩
  have ht : cookieIsTampered ts = true := by
    cases ts with
    | nil => simp at h0
    | cons c cs =>
      simp at h0; subst h0
      simp [cookieIsTampered, bytesHasPrefix, str_zero]
  unfold checkTimestamp
  cases ParseInt ts with
  | error e => simp
  | ok t =>
    cases h1 : cookieIsExpired now (timeUnix t) <;>
      cases h2 : cookieIsFromFuture now (timeUnix t) <;> simp [ht, h1, h2]

/-- The text `0x51bb6ca6` starts with `0` and is the hexadecimal of 1371237542. -/
theorem leading_zero_error_witness :
    (str "0x51bb6ca6").head? = some 48 ∧
    (∃ e, checkTimestamp (timeUnix 1371237542) (str "0x51bb6ca6") = some e) ∧
    (checkTimestamp (timeUnix 1371237542) (str "0x51bb6ca6") = some .tampered ↔
      ∃ t, ParseInt (str "0x51bb6ca6") = .ok t ∧
        cookieIsExpired (timeUnix 1371237542) (timeUnix t) = false ∧
        cookieIsFromFuture (timeUnix 1371237542) (timeUnix t) = false) :=
  ⟨by decide, leading_zero_error (timeUnix 1371237542) (str "0x51bb6ca6") (by decide)⟩

/-- C8: a token whose timestamp segment starts with `0` is never decoded:
`DecodeSignedValue` returns an error, also when the signature segment is the
signature of that timestamp segment. -/
theorem leading_zero_never_accepted (now : Time) (secret name token v ts sig : Bytes)
    (hsplit : bytesSplit token 124 = [v, ts, sig]) (h0 : ts.head? = some 48) :
    ∃ e, DecodeSignedValue now secret name token = .error e := by
  rw [DecodeSignedValue_of_split _ _ _ _ _ _ _ hsplit]
  obtain ⟨e, he⟩ := checkTimestamp_leading_zero now ts h0
  split
  · rw [he]; exact ⟨_, rfl⟩
  · exact ⟨_, rfl⟩

/-- A token with the timestamp segment `0x51bb6ca6`, inside the validity window,
and the signature of that segment is rejected. -/
theorem leading_zero_never_accepted_witness :
    bytesSplit (str "QQ==|0x51bb6ca6|" ++
        createSignature (str "k") [str "a", str "QQ==", str "0x51bb6ca6"]) 124
      = [str "QQ==", str "0x51bb6ca6",
          createSignature (str "k") [str "a", str "QQ==", str "0x51bb6ca6"]] ∧
    (str "0x51bb6ca6").head? = some 48 ∧
    ∃ e, DecodeSignedValue (timeUnix 1371237542) (str "k") (str "a")
      (str "QQ==|0x51bb6ca6|" ++
        createSignature (str "k") [str "a", str "QQ==", str "0x51bb6ca6"]) = .error e :=
  ⟨by decide!, by decide,
    leading_zero_never_accepted (timeUnix 1371237542) (str "k") (str "a")
      (str "QQ==|0x51bb6ca6|" ++
        createSignature (str "k") [str "a", str "QQ==", str "0x51bb6ca6"])
      (str "QQ==") (str "0x51bb6ca6")
      (createSignature (str "k") [str "a", str "QQ==", str "0x51bb6ca6"])
      (by decide!) (by decide)⟩

/-- C10, counterexample: with the clock at Unix time 1371237542 the signed
hexadecimal text `+0x51bb6ca6` and the text `1_371_237_542` with underscores,
neither of which starts with `0` or is a base-10 literal, are accepted. -/
theorem non_decimal_accepted :
    (str "+0x51bb6ca6").head? ≠ some 48 ∧
      isDecimalInt64Literal (str "+0x51bb6ca6") = false ∧
      checkTimestamp (timeUnix 1371237542) (str "+0x51bb6ca6") = none ∧
      (str "1_371_237_542").head? ≠ some 48 ∧
      isDecimalInt64Literal (str "1_371_237_542") = false ∧
      checkTimestamp (timeUnix 1371237542) (str "1_371_237_542") = none := by
  decide!

/-- C10 (amended): a timestamp text that does not start with `0`, has no `0` right
after a leading sign, holds no underscore and is not a base-10 signed 64-bit
integer literal gets the invalid-timestamp error at every current time. -/
theorem only_decimal_parses (now : Time) (s : Bytes)
    (h0 : s.head? ≠ some 48)
    (hs0 : ¬ ((s.head? = some 43 ∨ s.head? = some 45) ∧ s.tail.head? = some 48))
    (hus : 95 ∉ s) (hlit : isDecimalInt64Literal s = false) :
    checkTimestamp now s = some .invalidTimestamp := by
  apply checkTimestamp_of_ParseInt_error
  cases s with
  | nil => exact ⟨_, rfl⟩
  | cons c0 rest =>
    apply ParseInt_error
    intro u hu
    have hrest95 : 95 ∉ rest := fun m => hus (List.mem_cons_of_mem _ m)
    by_cases hsign : c0 = 43 ∨ c0 = 45
    · rw [if_pos hsign] at hu
      have hr0 : rest.head? ≠ some 48 := fun e => hs0 ⟨by simpa using hsign, by simpa using e⟩
      obtain ⟨hne, hall, hval⟩ := ParseUint_ok_decimal rest hr0 hrest95 u hu
      have hall' : rest.all (fun c => decide (48 ≤ c ∧ c ≤ 57)) = true := by
        rw [List.all_eq_true]; intro c hc; simpa using hall c hc
      have hds : (if (c0 :: rest).head? = some 43 ∨ (c0 :: rest).head? = some 45
          then (c0 :: rest).tail else c0 :: rest) = rest := if_pos (by simpa using hsign)
      by_contra hcon
      have hT : isDecimalInt64Literal (c0 :: rest) = true := by
        unfold isDecimalInt64Literal
        simp only []
        rw [hds, hall']
        by_cases hc : c0 = 45
        · rw [if_pos hc] at hcon
          rw [if_pos (by simpa using hc)]
          simp only [Bool.and_eq_true, decide_eq_true_eq]
          exact ⟨⟨hne, trivial⟩, by omega⟩
        · rw [if_neg hc] at hcon
          rw [if_neg (by simpa using hc)]
          simp only [Bool.and_eq_true, decide_eq_true_eq]
          exact ⟨⟨hne, trivial⟩, by omega⟩
      rw [hT] at hlit
      exact Bool.noConfusion hlit
    · rw [if_neg hsign] at hu
      have hc0 : (c0 :: rest).head? ≠ some 48 := h0
      obtain ⟨hne, hall, hval⟩ := ParseUint_ok_decimal (c0 :: rest) hc0 hus u hu
      have hall' : (c0 :: rest).all (fun c => decide (48 ≤ c ∧ c ≤ 57)) = true := by
        rw [List.all_eq_true]; intro c hc; simpa using hall c hc
      have hc : ¬ c0 = 45 := fun e => hsign (Or.inr e)
      have hds : (if (c0 :: rest).head? = some 43 ∨ (c0 :: rest).head? = some 45
          then (c0 :: rest).tail else c0 :: rest) = c0 :: rest := if_neg (by simpa using hsign)
      rw [if_neg hc]
      by_contra hcon
      have hT : isDecimalInt64Literal (c0 :: rest) = true := by
        unfold isDecimalInt64Literal
        simp only []
        rw [hds, hall', if_neg (by simpa using hc)]
        simp only [Bool.and_eq_true, decide_eq_true_eq]
        exact ⟨⟨hne, trivial⟩, by omega⟩
      rw [hT] at hlit
      exact Bool.noConfusion hlit

/-- The text `1371237542x` is not a base-10 literal. -/
theorem only_decimal_parses_witness :
    (str "1371237542x").head? ≠ some 48 ∧
    ¬ (((str "1371237542x").head? = some 43 ∨ (str "1371237542x").head? = some 45) ∧
      (str "1371237542x").tail.head? = some 48) ∧
    95 ∉ str "1371237542x" ∧
    isDecimalInt64Literal (str "1371237542x") = false ∧
    checkTimestamp (timeUnix 1371237542) (str "1371237542x") = some .invalidTimestamp :=
  ⟨by decide, by decide, by decide, by decide,
    only_decimal_parses (timeUnix 1371237542) (str "1371237542x")
      (by decide) (by decide) (by decide) (by decide)⟩

/-- C11: the empty token gets the empty-input error, and every non-empty token
that does not contain exactly two `|` characters gets the incomplete-token
error. -/
theorem structural_rejection (now : Time) (secret name : Bytes) :
    DecodeSignedValue now secret name [] = .error .emptyValue ∧
    ∀ token : Bytes, token ≠ [] → token.count 124 ≠ 2 →
      DecodeSignedValue now secret name token = .error .incomplete := by
  refine ⟨rfl, fun token hne hcount => ?_⟩
  apply DecodeSignedValue_incomplete _ _ _ _ hne
  rw [bytesSplit_length]
  omega

/-- The tokens `a|b` and `a|b|c|d` have one and three `|` characters. -/
theorem structural_rejection_witness :
    str "a|b" ≠ [] ∧ (str "a|b").count 124 ≠ 2 ∧
    DecodeSignedValue (timeUnix 1371237542) (str "k") (str "foo") (str "a|b")
      = .error .incomplete ∧
    str "a|b|c|d" ≠ [] ∧ (str "a|b|c|d").count 124 ≠ 2 ∧
    DecodeSignedValue (timeUnix 1371237542) (str "k") (str "foo") (str "a|b|c|d")
      = .error .incomplete :=
  ⟨by decide, by decide,
    (structural_rejection (timeUnix 1371237542) (str "k") (str "foo")).2 (str "a|b")
      (by decide) (by decide),
    by decide, by decide,
    (structural_rejection (timeUnix 1371237542) (str "k") (str "foo")).2 (str "a|b|c|d")
      (by decide) (by decide)⟩

/-- C12: for every secret and every sequence of segments `createSignature`
returns exactly 40 bytes, each one of `0-9` or `a-f`: the hexadecimal text of the
20-byte HMAC-SHA1 digest of the segments, the scratch buffer being cut at index
40. -/
theorem signature_format (secret : Bytes) (parts : List Bytes) :
    (createSignature secret parts).length = 40 ∧
    (∀ c ∈ createSignature secret parts, (48 ≤ c ∧ c ≤ 57) ∨ (97 ≤ c ∧ c ≤ 102)) ∧
    (hmacSHA1 secret parts.flatten).length = 20 ∧
    createSignature secret parts = hexEncodeToList (hmacSHA1 secret parts.flatten) ∧
    bytesIndex (hexEncode (List.replicate 64 0)
      (parts.foldl HMAC.Write (hmacNew secret)).Sum) 0 = 40 := by
  have hlen : (hmacSHA1 secret parts.flatten).length = 20 := hmacSum_length _
  refine ⟨?_, ?_, hlen, createSignature_eq secret parts, bytesIndex_scratch secret parts⟩
  · rw [createSignature_eq, hexEncodeToList_length, hlen]
  · rw [createSignature_eq]
    exact hexEncodeToList_hex _ (sha1Sum_lt _)

/-- The signature of the fixed vector starts with the character `3`. -/
theorem signature_format_witness :
    51 ∈ createSignature (str "sN?^WvQiOkv)QXhQwQZ>JH!YY/q(v%TY")
        [str "oauth_user_id", str "NzA2NDQ2NzMw", str "1371237542"] ∧
    ((48 ≤ 51 ∧ 51 ≤ 57) ∨ (97 ≤ 51 ∧ 51 ≤ 102)) :=
  ⟨by decide!,
    (signature_format (str "sN?^WvQiOkv)QXhQwQZ>JH!YY/q(v%TY")
      [str "oauth_user_id", str "NzA2NDQ2NzMw", str "1371237542"]).2.1 51 (by decide!)⟩

/-- C13: the token of `CreateSignedValue` holds exactly two `|` characters and
splits on `|` into the base64 text of the value, the decimal text of the Unix
seconds of the creation time and the signature of name, base64 text and decimal
text; no segment holds a `|`. -/
theorem token_layout (secret name value : Bytes) (t : Time) :
    (CreateSignedValue secret name value t).count 124 = 2 ∧
    bytesSplit (CreateSignedValue secret name value t) 124 =
      [base64EncodeToString value, FormatInt t.Unix,
        createSignature secret [name, base64EncodeToString value, FormatInt t.Unix]] ∧
    124 ∉ base64EncodeToString value ∧ 124 ∉ FormatInt t.Unix ∧
    124 ∉ createSignature secret [name, base64EncodeToString value, FormatInt t.Unix] ∧
    ParseInt (FormatInt t.Unix) = .ok t.Unix := by
  have hsplit := CreateSignedValue_split secret name value t
  have hr : -9223372036854775808 ≤ t.Unix ∧ t.Unix < 9223372036854775808 :=
    wrapInt64_range (t.ext - unixToInternal)
  refine ⟨?_, hsplit, base64EncodeToString_no_bar _, FormatInt_no_bar _,
    createSignature_no_bar _ _, ParseInt_FormatInt _ hr.1 hr.2⟩
  have hl := bytesSplit_length (CreateSignedValue secret name value t) 124
  rw [hsplit] at hl
  simp at hl
  omega

/-- C14: `GetSecureCookie` returns `ErrNoCookie` when no cookie has the name;
otherwise it decodes the value of the first cookie with the name and returns the
error of `DecodeSignedValue`, or that cookie with the decoded value for its
value, whatever cookies follow it. -/
theorem cookie_lookup (now : Time) (secret name : Bytes) :
    (∀ cookies : List Cookie, (∀ c ∈ cookies, c.Name ≠ name) →
      GetSecureCookie now cookies secret name = .error .noCookie) ∧
    (∀ (pre post : List Cookie) (c : Cookie), (∀ x ∈ pre, x.Name ≠ name) → c.Name = name →
      (∀ err, DecodeSignedValue now secret name c.Value = .error err →
        GetSecureCookie now (pre ++ c :: post) secret name = .error (.decode err)) ∧
      (∀ v, DecodeSignedValue now secret name c.Value = .ok v →
        GetSecureCookie now (pre ++ c :: post) secret name = .ok { c with Value := v })) := by
  constructor
  · intro cookies h
    unfold GetSecureCookie
    rw [findCookie_none cookies name h]
  · intro pre post c hpre hc
    constructor
    · intro err h
      unfold GetSecureCookie
      rw [findCookie_first c post name hc pre hpre]
      simp only [hc, h]
    · intro v h
      unfold GetSecureCookie
      rw [findCookie_first c post name hc pre hpre]
      simp only [hc, h]

/-- A list without the name `foo`; a list whose second and third cookies are
named `foo`, where the second one, the signed value of `bar`, is the one decoded;
and a list whose first cookie named `foo` is not a signed value. -/
theorem cookie_lookup_witness :
    (∀ c ∈ [plainCookie (str "x") (str "y")], c.Name ≠ str "foo") ∧
    GetSecureCookie (timeUnix 1371237542) [plainCookie (str "x") (str "y")] (str "k") (str "foo")
      = .error .noCookie ∧
    DecodeSignedValue (timeUnix 1371237542) (str "k") (str "foo")
        (str "YmFy|1371237542|f5606311eb1177783000f61f63d8a8fa93ee04bd") = .ok (str "bar") ∧
    GetSecureCookie (timeUnix 1371237542)
        ([plainCookie (str "x") (str "y")]
          ++ plainCookie (str "foo") (str "YmFy|1371237542|f5606311eb1177783000f61f63d8a8fa93ee04bd")
          :: [plainCookie (str "foo") (str "zzz")])
        (str "k") (str "foo")
      = .ok (plainCookie (str "foo") (str "bar")) ∧
    DecodeSignedValue (timeUnix 1371237542) (str "k") (str "foo") (str "zzz")
      = .error .incomplete ∧
    GetSecureCookie (timeUnix 1371237542)
        ([plainCookie (str "x") (str "y")]
          ++ plainCookie (str "foo") (str "zzz")
          :: [plainCookie (str "foo") (str "YmFy|1371237542|f5606311eb1177783000f61f63d8a8fa93ee04bd")])
        (str "k") (str "foo")
      = .error (.decode .incomplete) :=
  ⟨by decide!,
    (cookie_lookup (timeUnix 1371237542) (str "k") (str "foo")).1
      [plainCookie (str "x") (str "y")] (by decide!),
    by decide!,
    ((cookie_lookup (timeUnix 1371237542) (str "k") (str "foo")).2
      [plainCookie (str "x") (str "y")] [plainCookie (str "foo") (str "zzz")]
      (plainCookie (str "foo") (str "YmFy|1371237542|f5606311eb1177783000f61f63d8a8fa93ee04bd"))
      (by decide!) rfl).2 (str "bar") (by decide!),
    by decide!,
    ((cookie_lookup (timeUnix 1371237542) (str "k") (str "foo")).2
      [plainCookie (str "x") (str "y")] [plainCookie (str "foo") (str "YmFy|1371237542|f5606311eb1177783000f61f63d8a8fa93ee04bd")]
      (plainCookie (str "foo") (str "zzz"))
      (by decide!) rfl).1 .incomplete (by decide!)⟩

/-- C15: two tokens of the fixed vector with a wrong signature segment, wrong in
the first byte and wrong in the last byte. Both get the invalid-signature error;
`bytes.Equal` compares 1 byte pair for the first and 40 for the second. -/
theorem signature_comparison_early_exit :
    createSignature (str "sN?^WvQiOkv)QXhQwQZ>JH!YY/q(v%TY")
        [str "oauth_user_id", str "NzA2NDQ2NzMw", str "1371237542"]
      = str "334de90e34d9e1ffab881002dc90d2b8b2614333" ∧
    DecodeSignedValue (timeUnix 1371237542) (str "sN?^WvQiOkv)QXhQwQZ>JH!YY/q(v%TY") (str "oauth_user_id")
        (str "NzA2NDQ2NzMw|1371237542|434de90e34d9e1ffab881002dc90d2b8b2614333")
      = .error .invalidSignature ∧
    DecodeSignedValue (timeUnix 1371237542) (str "sN?^WvQiOkv)QXhQwQZ>JH!YY/q(v%TY") (str "oauth_user_id")
        (str "NzA2NDQ2NzMw|1371237542|334de90e34d9e1ffab881002dc90d2b8b2614334")
      = .error .invalidSignature ∧
    bytesEqualSteps (str "434de90e34d9e1ffab881002dc90d2b8b2614333")
        (createSignature (str "sN?^WvQiOkv)QXhQwQZ>JH!YY/q(v%TY")
          [str "oauth_user_id", str "NzA2NDQ2NzMw", str "1371237542"]) = 1 ∧
    bytesEqualSteps (str "334de90e34d9e1ffab881002dc90d2b8b2614334")
        (createSignature (str "sN?^WvQiOkv)QXhQwQZ>JH!YY/q(v%TY")
          [str "oauth_user_id", str "NzA2NDQ2NzMw", str "1371237542"]) = 40 := by
  decide!

/-- C16: the signature depends only on the concatenation of the segments; bytes
moved from the end of the value segment to the front of the timestamp segment
leave it unchanged. -/
theorem signature_of_concatenation (secret : Bytes) :
    (∀ xs ys : List Bytes, xs.flatten = ys.flatten →
      createSignature secret xs = createSignature secret ys) ∧
    (∀ name v1 d ts : Bytes,
      createSignature secret [name, v1 ++ d, ts] = createSignature secret [name, v1, d ++ ts]) := by
  constructor
  · intro xs ys h
    rw [createSignature_eq, createSignature_eq, h]
  · intro name v1 d ts
    rw [createSignature_eq, createSignature_eq]
    simp

/-- The segments `foo`, `1234` and the segments `foo12`, `34` have the same
concatenation. -/
theorem signature_of_concatenation_witness :
    [str "foo", str "1234"].flatten = [str "foo12", str "34"].flatten ∧
    createSignature (str "k") [str "foo", str "1234"]
      = createSignature (str "k") [str "foo12", str "34"] :=
  ⟨by decide,
    (signature_of_concatenation (str "k")).1 [str "foo", str "1234"] [str "foo12", str "34"]
      (by decide)⟩

/-- C17, counterexample: with `v1 = 12|34`, `d = 5678` and `t` the clock reading
1371237542 the token `12|34|56781371237542|sig` has four segments: it gets the
incomplete-token error before any signature comparison, not the FromFuture error
of the timestamp check. -/
theorem digit_shift_incomplete :
    DecodeSignedValue (timeUnix 1371237542) (str "k") (str "foo")
        (str "12|34" ++ 124 :: ((str "5678" ++ FormatInt 1371237542) ++ 124 ::
          createSignature (str "k") [str "foo", str "12|34" ++ str "5678",
            FormatInt 1371237542]))
      = .error .incomplete ∧
    checkTimestamp (timeUnix 1371237542) (str "5678" ++ FormatInt 1371237542)
      = some .fromFuture := by
  decide!

/-- C17 (amended): for a creation time `t` of at least 10000000 within 31 days of
the clock, a value segment `v1` without `|` and a non-empty string `d` of decimal
digits, the token `v1|d ++ ts|sig` with the signature of `(name, v1 ++ d, ts)`
passes the signature comparison and gets the error of the timestamp check. -/
theorem digit_shift_rejected (now : Time) (secret name v1 d : Bytes) (t : Int)
    (ht : 10000000 ≤ t) (ht2 : t < 9223372036854775808)
    (hwin : t - 2678400 ≤ now.ext - unixToInternal ∧ now.ext - unixToInternal ≤ t + 2678400)
    (hd : d ≠ []) (hdig : ∀ c ∈ d, 48 ≤ c ∧ c ≤ 57) (hv1 : 124 ∉ v1) :
    createSignature secret [name, v1, d ++ FormatInt t]
      = createSignature secret [name, v1 ++ d, FormatInt t] ∧
    ∃ e, checkTimestamp now (d ++ FormatInt t) = some e ∧
      DecodeSignedValue now secret name (v1 ++ 124 :: ((d ++ FormatInt t) ++ 124 ::
        createSignature secret [name, v1 ++ d, FormatInt t])) = .error e := by
  have hsig : createSignature secret [name, v1, d ++ FormatInt t]
      = createSignature secret [name, v1 ++ d, FormatInt t] := by
    rw [createSignature_eq, createSignature_eq]; simp
  obtain ⟨e, he⟩ := checkTimestamp_shifted now d t ht ht2 hwin hd hdig
  have hts : 124 ∉ d ++ FormatInt t := by
    intro h
    rcases List.mem_append.mp h with h | h
    · have := hdig 124 h; omega
    · exact FormatInt_no_bar t h
  refine ⟨hsig, e, he, ?_⟩
  rw [DecodeSignedValue_of_split _ _ _ _ _ _ _
    (bytesSplit_three _ _ _ hv1 hts (createSignature_no_bar _ _)), if_pos hsig.symm, he]

/-- The tampering of the test: `v1 = 1234`, `d = 5678`, created and decoded at
Unix time 1371237542. -/
theorem digit_shift_rejected_witness :
    (10000000 : Int) ≤ 1371237542 ∧ (1371237542 : Int) < 9223372036854775808 ∧
    ((1371237542 : Int) - 2678400 ≤ (timeUnix 1371237542).ext - unixToInternal ∧
      (timeUnix 1371237542).ext - unixToInternal ≤ 1371237542 + 2678400) ∧
    str "5678" ≠ [] ∧ (∀ c ∈ str "5678", 48 ≤ c ∧ c ≤ 57) ∧ 124 ∉ str "1234" ∧
    createSignature (str "k") [str "foo", str "1234", str "5678" ++ FormatInt 1371237542]
      = createSignature (str "k") [str "foo", str "1234" ++ str "5678", FormatInt 1371237542] ∧
    ∃ e, checkTimestamp (timeUnix 1371237542) (str "5678" ++ FormatInt 1371237542) = some e ∧
      DecodeSignedValue (timeUnix 1371237542) (str "k") (str "foo")
        (str "1234" ++ 124 :: ((str "5678" ++ FormatInt 1371237542) ++ 124 ::
          createSignature (str "k") [str "foo", str "1234" ++ str "5678",
            FormatInt 1371237542])) = .error e :=
  ⟨by decide, by decide, by decide, by decide, by decide, by decide,
    digit_shift_rejected (timeUnix 1371237542) (str "k") (str "foo") (str "1234") (str "5678")
      1371237542 (by decide) (by decide) (by decide) (by decide) (by decide) (by decide)⟩

/-- C18: after `SignCookie` the value of the cookie is the signed value of its old
value under its name, which is longer than the old value and so different from
it; the name and every other field are unchanged. -/
theorem sign_cookie (now : Time) (c : Cookie) (secret : Bytes) :
    (SignCookie now c secret).Value = CreateSignedValue secret c.Name c.Value now ∧
    c.Value.length < (SignCookie now c secret).Value.length ∧
    (SignCookie now c secret).Value ≠ c.Value ∧
    (SignCookie now c secret).Name = c.Name ∧
    SignCookie now c secret = { c with Value := (SignCookie now c secret).Value } := by
  have hlen : c.Value.length < (SignCookie now c secret).Value.length := by
    show c.Value.length < (CreateSignedValue secret c.Name c.Value now).length
    rw [CreateSignedValue_eq]
    have := base64EncodeToString_length_ge c.Value
    simp only [List.length_append, List.length_cons]
    omega
  refine ⟨rfl, hlen, ?_, rfl, rfl⟩
  intro h
  rw [h] at hlen
  exact Nat.lt_irrefl _ hlen

end SecureCookie
